import Mathlib

/-!
Shallow embedding of the transform stage of the tech-pulse fetcher
(`src/data_processor.py`, class `DataProcessor`), together with proofs of
the stated properties of the four processing functions:

* `process_github_trending`
* `process_rss_feeds_for_wordcloud`
* `process_product_hunt_for_sankey`
* `process_manifold_predictions_for_bubble_plot`

Modelling conventions:

* Python dicts used as records become structures; a `.get(key, default)`
  access on a possibly-absent key is modelled with an `Option` field and
  `Option.getD`.
* Python dicts used as insertion-ordered maps (`language_stats`,
  `final_languages`, `Counter`) become association lists with
  update-in-place semantics, which matches CPython's insertion-ordered
  dict exactly.
* Fallible statements (`ZeroDivisionError` on `x / 0`, `KeyError` on
  `d[k]`) are modelled in the `Except String` monad.
* Each LLM call is an external oracle; it is passed in as a function
  returning `Except Unit r` where `.error ()` stands for the call (or the
  parse of its response) raising, exactly the situation caught by the
  enclosing `try`/`except` in the source.
* The module-level `openai.api_key` (`os.getenv` result) is passed
  explicitly as an `Option String`; Python truthiness of that value is
  `pyTruthy`.
-/

/-- Python truthiness of an optional string (`not openai.api_key` is true
for both `None` and the empty string). -/
def pyTruthy (s : Option String) : Bool :=
  match s with
  | none => false
  | some str => !(str = "")

/-! ## `process_github_trending` (data_processor.py lines 21-72) -/

/-- One GitHub trending record as consumed by `process_github_trending`.
Every field the function reads via `repo.get(...)` is `Option`al; `none`
models an absent key. -/
structure GHRepo where
  title : Option String
  description : Option String
  url : Option String
  language : Option String
  stars : Option Nat
  stars_today : Option Nat
deriving DecidableEq

/-- The per-repository summary appended to a language bucket
(lines 33-39 of the source). -/
structure RepoSummary where
  title : Option String
  description : Option String
  url : Option String
  stars : Option Nat
  stars_today : Option Nat
deriving DecidableEq

/-- One value of the `language_stats` / `final_languages` dicts. -/
structure LangStats where
  repo_count : Nat
  total_stars : Nat
  stars_today : Nat
  repositories : List RepoSummary
deriving DecidableEq

/-- `{'repo_count': 0, 'total_stars': 0, 'stars_today': 0, 'repositories': []}` -/
def emptyStats : LangStats :=
  { repo_count := 0, total_stars := 0, stars_today := 0, repositories := [] }

/-- The body of the grouping loop: the `+=` updates and the `append` of
lines 30-39 applied to one bucket. -/
def addRepo (stats : LangStats) (repo : GHRepo) : LangStats :=
  { repo_count := stats.repo_count + 1
    total_stars := stats.total_stars + repo.stars.getD 0
    stars_today := stats.stars_today + repo.stars_today.getD 0
    repositories := stats.repositories ++
      [{ title := repo.title, description := repo.description, url := repo.url,
         stars := repo.stars, stars_today := repo.stars_today }] }

/-- Insertion-ordered dict update used by the grouping loop: create the
bucket if the language key is new (appending it at the end, as a CPython
dict does), then apply the per-repo update in place. -/
def dictAdd : List (String × LangStats) → String → GHRepo → List (String × LangStats)
  | [], lang, repo => [(lang, addRepo emptyStats repo)]
  | (k, v) :: rest, lang, repo =>
    if k = lang then (k, addRepo v repo) :: rest
    else (k, v) :: dictAdd rest lang repo

/-- The grouping loop of lines 24-39, processing the records left to
right while threading the `language_stats` dict: records whose language
(defaulting to `"Unknown"` for an absent key) is `"Unknown"` are
skipped. -/
def build_go : List (String × LangStats) → List GHRepo → List (String × LangStats)
  | d, [] => d
  | d, repo :: rest =>
    let lang := repo.language.getD "Unknown"
    build_go (if lang = "Unknown" then d else dictAdd d lang repo) rest

/-- The `language_stats` dict after the grouping loop (lines 23-39). -/
def build_language_stats (github_data : List GHRepo) : List (String × LangStats) :=
  build_go [] github_data

/-- Python dict assignment `d[k] = v`: replace the value in place if the
key exists (keeping its position), otherwise append at the end. -/
def dictSet : List (String × LangStats) → String → LangStats → List (String × LangStats)
  | [], k, v => [(k, v)]
  | (k', v') :: rest, k, v =>
    if k' = k then (k, v) :: rest
    else (k', v') :: dictSet rest k v

/-- `stats['repo_count'] / total_repos < 0.02` (line 45), a Python float
division raising `ZeroDivisionError` on a zero denominator. For every
`0 < total < 2 ^ 50` the IEEE-double comparison agrees with the exact
rational test `count / total < 1/50`, i.e. `50 * count < total`
(note that the double nearest to the literal `0.02` is also the double
nearest to `1/50`), which is the form used here. -/
def share_lt_2pct (count total : Nat) : Except String Bool :=
  if total = 0 then .error "ZeroDivisionError"
  else .ok (decide (50 * count < total))

/-- `other_stats` accumulation (lines 46-49): componentwise `+=` and
`extend` of the repository lists. -/
def addStats (a b : LangStats) : LangStats :=
  { repo_count := a.repo_count + b.repo_count
    total_stars := a.total_stars + b.total_stars
    stars_today := a.stars_today + b.stars_today
    repositories := a.repositories ++ b.repositories }

/-- The bucketing loop of lines 44-51, carrying the `other_stats`
accumulator and the `final_languages` dict. -/
def mergeLoop (total : Nat) :
    List (String × LangStats) → LangStats → List (String × LangStats) →
    Except String (LangStats × List (String × LangStats))
  | [], other, finals => .ok (other, finals)
  | (lang, stats) :: rest, other, finals =>
    match share_lt_2pct stats.repo_count total with
    | .error e => .error e
    | .ok small =>
      if small then mergeLoop total rest (addStats other stats) finals
      else mergeLoop total rest other (dictSet finals lang stats)

/-- `final_languages` after the bucketing loop and the conditional
`final_languages['Other'] = other_stats` of lines 52-53. -/
def final_languages (github_data : List GHRepo) :
    Except String (List (String × LangStats)) := do
  let (other, finals) ←
    mergeLoop github_data.length (build_language_stats github_data) emptyStats []
  pure (if 0 < other.repo_count then dictSet finals "Other" other else finals)

/-- The per-language hover entry of lines 61-68. -/
structure HoverEntry where
  total_stars : Nat
  stars_today : Nat
  repositories : List RepoSummary
deriving DecidableEq

/-- `chart_data["datasets"][0]` (lines 57-69). -/
structure GHDataset where
  label : String
  data : List Nat
  backgroundColor : List String
  hoverData : List HoverEntry
deriving DecidableEq

/-- The value returned by `process_github_trending` (lines 55-70). -/
structure GHChart where
  labels : List String
  datasets : List GHDataset
deriving DecidableEq

/-- `process_github_trending` (lines 21-72). -/
def process_github_trending (github_data : List GHRepo) : Except String GHChart := do
  let fl ← final_languages github_data
  pure
    { labels := fl.map (·.1)
      datasets := [
        { label := "GitHub Trending Languages"
          data := fl.map (·.2.repo_count)
          backgroundColor :=
            ["#3572A5", "#F1E05A", "#00ADD8", "#DEA584", "#89E051", "#B07219", "#CCCCCC"]
          hoverData := fl.map (fun p =>
            { total_stars := p.2.total_stars
              stars_today := p.2.stars_today
              repositories := p.2.repositories }) }] }

/-- Number of input records whose `language` field (with `"Unknown"` for
an absent key) is not `"Unknown"`. -/
def countKnown (github_data : List GHRepo) : Nat :=
  (github_data.filter (fun r => !(r.language.getD "Unknown" = "Unknown"))).length

/-- Sum of the `repo_count` fields of an association list of buckets. -/
def sumCounts (d : List (String × LangStats)) : Nat :=
  (d.map (fun p => p.2.repo_count)).sum

/-! ### Supporting lemmas for the GitHub aggregator -/

lemma sumCounts_nil : sumCounts [] = 0 := rfl

lemma sumCounts_cons (p : String × LangStats) (d : List (String × LangStats)) :
    sumCounts (p :: d) = p.2.repo_count + sumCounts d := by
  simp [sumCounts]

lemma sumCounts_append (a b : List (String × LangStats)) :
    sumCounts (a ++ b) = sumCounts a + sumCounts b := by
  simp [sumCounts]

lemma sumCounts_dictAdd (d : List (String × LangStats)) (lang : String) (repo : GHRepo) :
    sumCounts (dictAdd d lang repo) = sumCounts d + 1 := by
  induction d with
  | nil => simp [dictAdd, sumCounts, addRepo, emptyStats]
  | cons hd tl ih =>
    obtain ⟨k, v⟩ := hd
    by_cases hk : k = lang
    · simp [dictAdd, hk, sumCounts_cons, addRepo]
      omega
    · simp only [dictAdd, if_neg hk, sumCounts_cons, ih]
      omega

lemma countKnown_nil : countKnown [] = 0 := rfl

lemma countKnown_cons (r : GHRepo) (rest : List GHRepo) :
    countKnown (r :: rest) =
      (if r.language.getD "Unknown" = "Unknown" then 0 else 1) + countKnown rest := by
  unfold countKnown
  rw [List.filter_cons]
  by_cases h : r.language.getD "Unknown" = "Unknown"
  · simp [h]
  · simp only [h, decide_False, Bool.not_false, if_true, if_false, List.length_cons,
      decide_eq_true_eq]
    omega

lemma sumCounts_build_go (data : List GHRepo) :
    ∀ d : List (String × LangStats),
      sumCounts (build_go d data) = sumCounts d + countKnown data := by
  induction data with
  | nil => intro d; simp [build_go, countKnown_nil]
  | cons r rest ih =>
    intro d
    rw [countKnown_cons]
    by_cases h : r.language.getD "Unknown" = "Unknown"
    · simp only [build_go, if_pos h, ih, h, if_true]
      omega
    · simp only [build_go, if_neg h, ih, h, if_false]
      rw [sumCounts_dictAdd]
      omega

lemma sumCounts_build (data : List GHRepo) :
    sumCounts (build_language_stats data) = countKnown data := by
  rw [build_language_stats, sumCounts_build_go, sumCounts_nil, Nat.zero_add]

lemma mem_keys_dictAdd (d : List (String × LangStats)) (lang : String) (repo : GHRepo)
    (k : String) :
    k ∈ (dictAdd d lang repo).map Prod.fst ↔ k ∈ d.map Prod.fst ∨ k = lang := by
  induction d with
  | nil => simp [dictAdd]
  | cons hd tl ih =>
    obtain ⟨k', v⟩ := hd
    by_cases hk : k' = lang
    · subst hk
      simp only [dictAdd, if_true, List.map_cons, List.mem_cons]
      tauto
    · simp only [dictAdd]
      rw [if_neg hk]
      simp only [List.map_cons, List.mem_cons, ih]
      tauto

lemma nodup_keys_dictAdd (d : List (String × LangStats)) (lang : String) (repo : GHRepo)
    (h : (d.map Prod.fst).Nodup) : ((dictAdd d lang repo).map Prod.fst).Nodup := by
  induction d with
  | nil => simp [dictAdd]
  | cons hd tl ih =>
    obtain ⟨k', v⟩ := hd
    simp only [List.map_cons, List.nodup_cons] at h
    by_cases hk : k' = lang
    · subst hk
      simp only [dictAdd, if_true, List.map_cons, List.nodup_cons]
      exact h
    · simp only [dictAdd]
      rw [if_neg hk]
      simp only [List.map_cons, List.nodup_cons]
      refine ⟨?_, ih h.2⟩
      rw [mem_keys_dictAdd]
      rintro (hmem | heq)
      · exact h.1 hmem
      · exact hk heq

lemma nodup_keys_build_go (data : List GHRepo) :
    ∀ d : List (String × LangStats), (d.map Prod.fst).Nodup →
      ((build_go d data).map Prod.fst).Nodup := by
  induction data with
  | nil => intro d hd; exact hd
  | cons r rest ih =>
    intro d hd
    by_cases h : r.language.getD "Unknown" = "Unknown"
    · simp only [build_go, if_pos h]
      exact ih _ hd
    · simp only [build_go, if_neg h]
      exact ih _ (nodup_keys_dictAdd _ _ _ hd)

lemma nodup_keys_build (data : List GHRepo) :
    ((build_language_stats data).map Prod.fst).Nodup :=
  nodup_keys_build_go data [] (by simp)

lemma mem_keys_build_go (data : List GHRepo) (k : String) :
    ∀ d : List (String × LangStats), k ∈ (build_go d data).map Prod.fst →
      k ∈ d.map Prod.fst ∨ ∃ r ∈ data, r.language.getD "Unknown" = k := by
  induction data with
  | nil => intro d h; exact Or.inl h
  | cons r rest ih =>
    intro d h
    by_cases hr : r.language.getD "Unknown" = "Unknown"
    · simp only [build_go, if_pos hr] at h
      rcases ih d h with h' | ⟨r', hr', hk⟩
      · exact Or.inl h'
      · exact Or.inr ⟨r', List.mem_cons_of_mem _ hr', hk⟩
    · simp only [build_go, if_neg hr] at h
      rcases ih _ h with h' | ⟨r', hr', hk⟩
      · rw [mem_keys_dictAdd] at h'
        rcases h' with h'' | heq
        · exact Or.inl h''
        · exact Or.inr ⟨r, List.mem_cons_self _ _, heq.symm⟩
      · exact Or.inr ⟨r', List.mem_cons_of_mem _ hr', hk⟩

lemma dictSet_fresh (d : List (String × LangStats)) (k : String) (v : LangStats)
    (h : k ∉ d.map Prod.fst) : dictSet d k v = d ++ [(k, v)] := by
  induction d with
  | nil => rfl
  | cons hd tl ih =>
    obtain ⟨k', v'⟩ := hd
    simp only [List.map_cons, List.mem_cons] at h
    push_neg at h
    have hne : ¬ (k' = k) := fun he => h.1 he.symm
    simp only [dictSet, if_neg hne, List.cons_append]
    rw [ih h.2]

/-- Closed form of the bucketing loop under the hypotheses that hold at
its call site: a nonzero denominator, pairwise-distinct keys in the
remaining items, and keys disjoint from the `final_languages` built so
far. The sub-2% buckets fold into the `other` accumulator in order, the
rest are appended to `finals` in order. -/
lemma mergeLoop_run (total : Nat) (ht : total ≠ 0) :
    ∀ (l : List (String × LangStats)) (o : LangStats) (f : List (String × LangStats)),
      (∀ k ∈ l.map Prod.fst, k ∉ f.map Prod.fst) →
      (l.map Prod.fst).Nodup →
      mergeLoop total l o f = .ok
        (((l.filter (fun q => decide (50 * q.2.repo_count < total))).map Prod.snd).foldl
            addStats o,
         f ++ l.filter (fun q => !decide (50 * q.2.repo_count < total))) := by
  intro l
  induction l with
  | nil => intro o f _ _; simp [mergeLoop]
  | cons hd tl ih =>
    intro o f hfresh hnodup
    obtain ⟨lang, stats⟩ := hd
    simp only [List.map_cons, List.nodup_cons] at hnodup
    have hshare : share_lt_2pct stats.repo_count total =
        .ok (decide (50 * stats.repo_count < total)) := by
      simp [share_lt_2pct, ht]
    by_cases hsmall : 50 * stats.repo_count < total
    · have hdec : decide (50 * stats.repo_count < total) = true := decide_eq_true hsmall
      simp only [mergeLoop, hshare, hdec, if_true]
      rw [ih (addStats o stats) f
        (fun k hk => hfresh k (List.mem_cons_of_mem _ hk)) hnodup.2]
      simp [List.filter_cons, hdec]
    · have hdec : decide (50 * stats.repo_count < total) = false := by
        simp [hsmall]
      have hlang : lang ∉ f.map Prod.fst :=
        hfresh lang (List.mem_cons_self _ _)
      have hfresh' : ∀ k ∈ tl.map Prod.fst,
          k ∉ (f ++ [(lang, stats)]).map Prod.fst := by
        intro k hk
        simp only [List.map_append, List.mem_append, List.map_cons, List.map_nil,
          List.mem_singleton]
        rintro (hmem | hke)
        · exact hfresh k (List.mem_cons_of_mem _ hk) hmem
        · subst hke
          exact hnodup.1 hk
      simp only [mergeLoop, hshare, hdec, Bool.false_eq_true, if_false]
      rw [dictSet_fresh f lang stats hlang]
      rw [ih o (f ++ [(lang, stats)]) hfresh' hnodup.2]
      simp [List.filter_cons, hdec]

lemma repo_count_foldl_addStats (l : List LangStats) (o : LangStats) :
    (l.foldl addStats o).repo_count = o.repo_count + (l.map (·.repo_count)).sum := by
  induction l generalizing o with
  | nil => simp
  | cons s rest ih =>
    simp only [List.foldl_cons, ih, addStats, List.map_cons, List.sum_cons]
    omega

lemma sumCounts_filter_partition (p : String × LangStats → Bool)
    (l : List (String × LangStats)) :
    sumCounts (l.filter p) + sumCounts (l.filter (fun q => !p q)) = sumCounts l := by
  induction l with
  | nil => rfl
  | cons hd tl ih =>
    by_cases h : p hd
    · simp only [List.filter_cons, h, Bool.not_true, if_true, Bool.false_eq_true,
        if_false, sumCounts_cons]
      omega
    · have h' : p hd = false := by simpa using h
      simp only [List.filter_cons, h', Bool.not_false, if_true, Bool.false_eq_true,
        if_false, sumCounts_cons]
      omega

lemma build_ne_nil_of_mem (data : List GHRepo) (h : build_language_stats data ≠ []) :
    data ≠ [] := by
  intro hd
  subst hd
  exact h rfl

/-- The exact-rational reading of the source's share test: for a nonzero
denominator, `count / total < 0.02` (as Python evaluates it) is the
rational comparison `count / total < 2/100`, which is `50 * count <
total`. -/
lemma share_lt_iff (c t : Nat) (ht : t ≠ 0) :
    ((c : ℚ) / (t : ℚ) < 2 / 100) ↔ 50 * c < t := by
  have ht' : (0 : ℚ) < (t : ℚ) := by
    exact_mod_cast Nat.pos_of_ne_zero ht
  rw [div_lt_iff₀ ht']
  constructor
  · intro h2
    have h3 : (50 : ℚ) * c < t := by linarith
    exact_mod_cast h3
  · intro h2
    have h3 : (50 : ℚ) * c < t := by exact_mod_cast h2
    linarith

lemma final_languages_eq (data : List GHRepo) (o : LangStats)
    (f : List (String × LangStats))
    (hm : mergeLoop data.length (build_language_stats data) emptyStats [] = .ok (o, f)) :
    final_languages data = .ok (if 0 < o.repo_count then dictSet f "Other" o else f) := by
  unfold final_languages
  rw [hm]
  rfl

lemma process_eq (data : List GHRepo) (fl : List (String × LangStats))
    (hfl : final_languages data = .ok fl) :
    process_github_trending data = .ok
      { labels := fl.map (·.1)
        datasets := [
          { label := "GitHub Trending Languages"
            data := fl.map (·.2.repo_count)
            backgroundColor :=
              ["#3572A5", "#F1E05A", "#00ADD8", "#DEA584", "#89E051", "#B07219", "#CCCCCC"]
            hoverData := fl.map (fun p =>
              { total_stars := p.2.total_stars
                stars_today := p.2.stars_today
                repositories := p.2.repositories }) }] } := by
  unfold process_github_trending
  rw [hfl]
  rfl

lemma lang_eq_some_of_getD (r : GHRepo) (s : String) (hs : s ≠ "Unknown")
    (h : r.language.getD "Unknown" = s) : r.language = some s := by
  cases hl : r.language with
  | none => rw [hl] at h; simp [Option.getD] at h; exact absurd h.symm hs
  | some s' => rw [hl] at h; simp [Option.getD] at h; rw [h]

lemma other_not_in_kept (data : List GHRepo)
    (hother : ∀ r ∈ data, r.language ≠ some "Other") :
    "Other" ∉ ((build_language_stats data).filter
        (fun q => !decide (50 * q.2.repo_count < data.length))).map Prod.fst := by
  intro hmem
  obtain ⟨q, hq, hfst⟩ := List.mem_map.mp hmem
  have hk : "Other" ∈ (build_language_stats data).map Prod.fst :=
    List.mem_map.mpr ⟨q, (List.mem_filter.mp hq).1, hfst⟩
  rcases mem_keys_build_go data "Other" []
      (by simpa [build_language_stats] using hk) with hk' | ⟨r, hr, hlang⟩
  · simp at hk'
  · exact hother r hr (lang_eq_some_of_getD r "Other" (by decide) hlang)

lemma sumCounts_other_acc (data : List GHRepo) :
    ((((build_language_stats data).filter
        (fun q => decide (50 * q.2.repo_count < data.length))).map Prod.snd).foldl
      addStats emptyStats).repo_count =
    sumCounts ((build_language_stats data).filter
        (fun q => decide (50 * q.2.repo_count < data.length))) := by
  rw [repo_count_foldl_addStats]
  simp [emptyStats, sumCounts, List.map_map]
  rfl

lemma sumCounts_final_languages (data : List GHRepo)
    (hother : ∀ r ∈ data, r.language ≠ some "Other")
    (fl : List (String × LangStats)) (h : final_languages data = .ok fl) :
    sumCounts fl = countKnown data := by
  by_cases hb : build_language_stats data = []
  · have hm : mergeLoop data.length (build_language_stats data) emptyStats [] =
        .ok (emptyStats, []) := by rw [hb]; rfl
    rw [final_languages_eq data emptyStats [] hm] at h
    have hfl : fl = [] := by
      injection h with h'
      rw [← h']
      rfl
    rw [hfl, ← sumCounts_build, hb]
  · have ht : data.length ≠ 0 := fun h0 => (build_ne_nil_of_mem data hb)
      (List.length_eq_zero.mp h0)
    have hm := mergeLoop_run data.length ht (build_language_stats data) emptyStats []
      (by simp) (nodup_keys_build data)
    rw [final_languages_eq data _ _ hm] at h
    injection h with h'
    rw [← h']
    rw [List.nil_append]
    by_cases hpos : 0 < ((((build_language_stats data).filter
        (fun q => decide (50 * q.2.repo_count < data.length))).map Prod.snd).foldl
      addStats emptyStats).repo_count
    · rw [if_pos hpos]
      rw [dictSet_fresh _ _ _ (other_not_in_kept data hother)]
      rw [sumCounts_append]
      have hsingle : sumCounts [("Other",
          (((build_language_stats data).filter
            (fun q => decide (50 * q.2.repo_count < data.length))).map Prod.snd).foldl
              addStats emptyStats)] =
          sumCounts ((build_language_stats data).filter
            (fun q => decide (50 * q.2.repo_count < data.length))) := by
        rw [sumCounts_cons, sumCounts_nil]
        rw [show (("Other",
          (((build_language_stats data).filter
            (fun q => decide (50 * q.2.repo_count < data.length))).map Prod.snd).foldl
              addStats emptyStats) : String × LangStats).2 =
            (((build_language_stats data).filter
            (fun q => decide (50 * q.2.repo_count < data.length))).map Prod.snd).foldl
              addStats emptyStats from rfl]
        rw [sumCounts_other_acc]
        omega
      rw [hsingle, ← sumCounts_build data]
      rw [← sumCounts_filter_partition
        (fun q => decide (50 * q.2.repo_count < data.length)) (build_language_stats data)]
      omega
    · rw [if_neg hpos]
      have hzero : sumCounts ((build_language_stats data).filter
          (fun q => decide (50 * q.2.repo_count < data.length))) = 0 := by
        rw [← sumCounts_other_acc]
        omega
      rw [← sumCounts_build data]
      rw [← sumCounts_filter_partition
        (fun q => decide (50 * q.2.repo_count < data.length)) (build_language_stats data)]
      omega

lemma process_ok_inv (data : List GHRepo) (chart : GHChart)
    (h : process_github_trending data = .ok chart) :
    ∃ fl, final_languages data = .ok fl ∧
      (chart.datasets.map (fun ds => ds.data.sum)).sum = sumCounts fl := by
  cases hfl : final_languages data with
  | error e =>
    exfalso
    unfold process_github_trending at h
    rw [hfl] at h
    simp [Bind.bind, Except.bind] at h
  | ok fl =>
    refine ⟨fl, rfl, ?_⟩
    rw [process_eq data fl hfl] at h
    injection h with h'
    rw [← h']
    simp [sumCounts]

/-! ### Claim C1 -/

/-- A trending record whose language is the literal string `"Other"`. -/
def ghOtherRepo : GHRepo :=
  { title := some "other-lang-repo", description := none, url := none,
    language := some "Other", stars := some 10, stars_today := some 1 }

/-- A trending record of a rare language `"X"`. -/
def ghXRepo : GHRepo :=
  { title := some "x-repo", description := none, url := none,
    language := some "X", stars := some 7, stars_today := some 2 }

/-- 51 records: 50 of language `"Other"` (share 50/51 ≥ 2%) and one of
language `"X"` (share 1/51 < 2%). -/
def ghInput51 : List GHRepo := List.replicate 50 ghOtherRepo ++ [ghXRepo]

/-- C1, counterexample: on `ghInput51` all 51 records have a known
language, yet the genuine `"Other"` bucket (50 repos) is overwritten by
the synthetic `"Other"` rollup (1 repo), so the output `repo_count` sum
is 1, not 51. -/
theorem C1_counterexample :
    countKnown ghInput51 = 51 ∧
    (process_github_trending ghInput51).toOption.map
      (fun c => (c.datasets.map (fun ds => ds.data.sum)).sum) = some 1 := by
  decide

/-- C1 (amended): for every input list in which no record's language is
the literal string `"Other"`, the sum of `repo_count` over all buckets in
the output (including the synthetic `"Other"` bucket when present) equals
the number of input records whose language field is not `"Unknown"`. -/
theorem C1_bucket_repo_count_sum (github_data : List GHRepo) (chart : GHChart)
    (hother : ∀ r ∈ github_data, r.language ≠ some "Other")
    (h : process_github_trending github_data = .ok chart) :
    (chart.datasets.map (fun ds => ds.data.sum)).sum = countKnown github_data := by
  obtain ⟨fl, hfl, hsum⟩ := process_ok_inv github_data chart h
  rw [hsum, sumCounts_final_languages github_data hother fl hfl]

/-- The chart produced for the single-record input `[ghXRepo]`. -/
def ghChartX : GHChart :=
  { labels := ["X"]
    datasets := [
      { label := "GitHub Trending Languages"
        data := [1]
        backgroundColor :=
          ["#3572A5", "#F1E05A", "#00ADD8", "#DEA584", "#89E051", "#B07219", "#CCCCCC"]
        hoverData := [
          { total_stars := 7, stars_today := 2,
            repositories := [
              { title := some "x-repo", description := none, url := none,
                stars := some 7, stars_today := some 2 }] }] }] }

/-- C1 witness: `C1_bucket_repo_count_sum` applied at the concrete input
`[ghXRepo]`. -/
theorem C1_witness :
    (∀ r ∈ [ghXRepo], r.language ≠ some "Other") ∧
    process_github_trending [ghXRepo] = .ok ghChartX ∧
    (ghChartX.datasets.map (fun ds => ds.data.sum)).sum = countKnown [ghXRepo] :=
  ⟨by decide, rfl,
    C1_bucket_repo_count_sum [ghXRepo] ghChartX (by decide) rfl⟩

/-! ### Claim C3 -/

/-- C3: for a non-empty input list the bucketing loop succeeds; the share
is taken against the full record count (`github_data.length`, which
counts `"Unknown"` records too); every bucket kept as its own language
has share at least 2%, every language with share at least 2% is kept, and
the `"Other"` accumulator collects exactly the `repo_count` total of the
languages with share strictly below 2%. -/
theorem C3_share_threshold (github_data : List GHRepo) (hne : github_data ≠ []) :
    ∃ other finals,
      mergeLoop github_data.length (build_language_stats github_data) emptyStats [] =
        .ok (other, finals) ∧
      (∀ p ∈ finals,
        (2 : ℚ) / 100 ≤ (p.2.repo_count : ℚ) / (github_data.length : ℚ)) ∧
      (∀ q ∈ build_language_stats github_data,
        (2 : ℚ) / 100 ≤ (q.2.repo_count : ℚ) / (github_data.length : ℚ) → q ∈ finals) ∧
      other.repo_count = sumCounts ((build_language_stats github_data).filter
        (fun q => decide ((q.2.repo_count : ℚ) / (github_data.length : ℚ) < 2 / 100))) := by
  have ht : github_data.length ≠ 0 := fun h0 => hne (List.length_eq_zero.mp h0)
  have hm := mergeLoop_run github_data.length ht (build_language_stats github_data)
    emptyStats [] (by simp) (nodup_keys_build github_data)
  rw [List.nil_append] at hm
  refine ⟨_, _, hm, ?_, ?_, ?_⟩
  · intro p hp
    have hpred := (List.mem_filter.mp hp).2
    have hge : ¬ 50 * p.2.repo_count < github_data.length := by
      simpa using hpred
    have := (share_lt_iff p.2.repo_count github_data.length ht).not.mpr hge
    exact le_of_not_lt this
  · intro q hq hshare
    apply List.mem_filter.mpr
    refine ⟨hq, ?_⟩
    have : ¬ 50 * q.2.repo_count < github_data.length :=
      (share_lt_iff q.2.repo_count github_data.length ht).not.mp (not_lt_of_le hshare)
    simpa using this
  · rw [sumCounts_other_acc]
    congr 1
    apply List.filter_congr
    intro q _
    rw [decide_eq_decide]
    exact (share_lt_iff q.2.repo_count github_data.length ht).symm

/-- C3 witness: `C3_share_threshold` applied at the concrete one-record
input `[ghXRepo]`. -/
theorem C3_witness :
    ([ghXRepo] ≠ []) ∧
    (∃ other finals,
      mergeLoop [ghXRepo].length (build_language_stats [ghXRepo]) emptyStats [] =
        .ok (other, finals) ∧
      (∀ p ∈ finals,
        (2 : ℚ) / 100 ≤ (p.2.repo_count : ℚ) / (([ghXRepo].length : Nat) : ℚ)) ∧
      (∀ q ∈ build_language_stats [ghXRepo],
        (2 : ℚ) / 100 ≤ (q.2.repo_count : ℚ) / (([ghXRepo].length : Nat) : ℚ) →
          q ∈ finals) ∧
      other.repo_count = sumCounts ((build_language_stats [ghXRepo]).filter
        (fun q => decide ((q.2.repo_count : ℚ) / (([ghXRepo].length : Nat) : ℚ) <
          2 / 100)))) :=
  ⟨by decide, C3_share_threshold [ghXRepo] (by decide)⟩

/-! ### Claim C7 -/

/-- C7: on the empty input list `process_github_trending` returns the
empty chart (no language buckets) with no `ZeroDivisionError`: the share
division is never executed on the zero denominator, so the result is
`.ok`, not `.error "ZeroDivisionError"`. -/
theorem C7_empty_input :
    process_github_trending [] = .ok
      { labels := []
        datasets := [
          { label := "GitHub Trending Languages"
            data := []
            backgroundColor :=
              ["#3572A5", "#F1E05A", "#00ADD8", "#DEA584", "#89E051", "#B07219", "#CCCCCC"]
            hoverData := [] }] } := rfl

/-! ## `process_product_hunt_for_sankey` (data_processor.py lines 213-280) -/

/-- One Product Hunt record as consumed by
`process_product_hunt_for_sankey`. The fetch layer also supplies a
`tagline` field; this function never reads it. `topics` models
`product.get('topics', [])` (an absent key and an empty list behave
identically downstream). -/
structure PHRecord where
  title : Option String
  tagline : Option String
  url : Option String
  topics : List String
deriving DecidableEq

/-- The fixed category list of line 215. -/
def CORE_CATEGORIES : List String :=
  ["AI/ML", "Developer Tools", "Productivity", "Design", "Marketing & Sales",
   "Finance", "Education", "Health & Fitness", "Gaming", "Hardware", "Security",
   "Social", "Data & Analytics", "No-Code/Low-Code", "Other"]

/-- Stable insertion: `x` moves past exactly the elements strictly before
it under `le`, so ties keep their original relative order. -/
def stableInsert (le : α → α → Bool) (x : α) : List α → List α
  | [] => [x]
  | y :: ys =>
    if le y x && !le x y then y :: stableInsert le x ys else x :: y :: ys

/-- A stable sort (insertion sort). Python's `sorted` is stable, and a
stable sort for a total preorder is a unique function, so this models
`sorted` exactly. -/
def stableSort (le : α → α → Bool) : List α → List α
  | [] => []
  | x :: xs => stableInsert le x (stableSort le xs)

/-- `sorted(relevance_scores.items(), key=lambda item: item[1],
reverse=True)` (line 236): stable descending sort on the score. -/
def sortByScoreDesc (scores : List (String × Int)) : List (String × Int) :=
  stableSort (fun a b => decide (b.2 ≤ a.2)) scores

/-- `[cat for cat, score in sorted_categories[:2] if score > 3]`
(line 237). -/
def product_mapped_categories (scores : List (String × Int)) : List String :=
  (((sortByScoreDesc scores).take 2).filter (fun x => decide (3 < x.2))).map Prod.fst

/-- The per-record mapping loop of lines 220-241: a record with an empty
(or absent) `topics` list is skipped before the oracle is consulted; a
record whose oracle call raises contributes `["Other"]`. -/
def all_mapped_categories (oracle : List String → Except Unit (List (String × Int))) :
    List PHRecord → List (List String)
  | [] => []
  | p :: rest =>
    if p.topics = [] then all_mapped_categories oracle rest
    else
      (match oracle p.topics with
       | .ok scores => product_mapped_categories scores
       | .error _ => ["Other"]) :: all_mapped_categories oracle rest

/-- Code-point lexicographic `<=` on character lists: how Python
compares strings. -/
def charListLe : List Char → List Char → Bool
  | [], _ => true
  | _ :: _, [] => false
  | a :: as, b :: bs =>
    if a.toNat < b.toNat then true
    else if b.toNat < a.toNat then false
    else charListLe as bs

/-- Python's `<=` on strings, on the underlying character lists. -/
def pyStrLe (a b : String) : Bool := charListLe a.data b.data

/-- `tuple(sorted((a, b)))` for a two-element tuple (line 253): the pair
in canonical (ascending) order. -/
def canonPair (a b : String) : String × String :=
  if pyStrLe a b then (a, b) else (b, a)

/-- One `links[key] += 1` step on the `Counter` (a missing key starts at
0 and the new entry is appended, as in an insertion-ordered dict). -/
def bumpLink : List ((String × String) × Nat) → (String × String) →
    List ((String × String) × Nat)
  | [], k => [(k, 1)]
  | (k', v) :: rest, k =>
    if k' = k then (k', v + 1) :: rest else (k', v) :: bumpLink rest k

/-- The ordered pairs `(cats[i], cats[j])` for `i < j`, in the order the
double loop of lines 251-252 visits them. -/
def orderedPairs : List String → List (String × String)
  | [] => []
  | c :: rest => rest.map (fun d => (c, d)) ++ orderedPairs rest

/-- The `links` Counter after the loop of lines 249-253. -/
def buildLinks (asgn : List (List String)) : List ((String × String) × Nat) :=
  asgn.foldl
    (fun l cats =>
      (orderedPairs cats).foldl (fun l' pr => bumpLink l' (canonPair pr.1 pr.2)) l)
    []

/-- One entry of the `nodes` table of lines 243-247. -/
structure SankeyNode where
  node : Nat
  name : String
deriving DecidableEq

/-- Index lookup threading the running index, mirroring the
`node_to_id` dict built from `enumerate(CORE_CATEGORIES)` (the list has
no duplicates, so first and last occurrence agree). -/
def idxLookup : List String → String → Nat → Option Nat
  | [], _, _ => none
  | c :: rest, cat, i => if c = cat then some i else idxLookup rest cat (i + 1)

/-- `node_to_id[cat]` (lines 259-260): a `KeyError` when the category is
not one of `CORE_CATEGORIES`. -/
def node_to_id (cat : String) : Except String Nat :=
  match idxLookup CORE_CATEGORIES cat 0 with
  | some i => .ok i
  | none => .error "KeyError"

/-- One emitted link (lines 258-262). -/
structure SankeyLink where
  source : Nat
  target : Nat
  value : Nat
deriving DecidableEq

/-- The link-emission loop of lines 255-262 (`if value > 0`). -/
def emitLinks : List ((String × String) × Nat) → Except String (List SankeyLink)
  | [] => .ok []
  | ((s, t), v) :: rest =>
    if 0 < v then
      match node_to_id s, node_to_id t, emitLinks rest with
      | .ok si, .ok ti, .ok ls =>
        .ok ({ source := si, target := ti, value := v } :: ls)
      | .error e, _, _ => .error e
      | _, .error e, _ => .error e
      | _, _, .error e => .error e
    else emitLinks rest

/-- `sankey_data` (line 264). -/
structure SankeyData where
  nodes : List SankeyNode
  links : List SankeyLink
deriving DecidableEq

/-- Nodes and links built from the per-record category assignments
(lines 243-264). -/
def buildSankey (asgn : List (List String)) : Except String SankeyData :=
  match emitLinks (buildLinks asgn) with
  | .ok ls =>
    .ok { nodes := CORE_CATEGORIES.enum.map (fun p => { node := p.1, name := p.2 })
          links := ls }
  | .error e => .error e

/-- One entry of `product_details` (lines 267-273). -/
structure ProductDetail where
  title : String
  url : String
  topics : List String
deriving DecidableEq

/-- `final_product_hunt_data` (lines 275-278). -/
structure PHResult where
  sankey_data : SankeyData
  product_details : List ProductDetail
deriving DecidableEq

/-- `process_product_hunt_for_sankey` (lines 213-280). `.ok none` models
the bare `{}` returned when the oracle credential is absent. -/
def process_product_hunt_for_sankey (api_key : Option String)
    (oracle : List String → Except Unit (List (String × Int)))
    (product_hunt_data : List PHRecord) : Except String (Option PHResult) :=
  if !pyTruthy api_key then .ok none
  else
    match buildSankey (all_mapped_categories oracle product_hunt_data) with
    | .error e => .error e
    | .ok sankey =>
      .ok (some
        { sankey_data := sankey
          product_details := product_hunt_data.map (fun p =>
            { title := p.title.getD "", url := p.url.getD "",
              topics := p.topics }) })

/-! ### Supporting lemmas for the Sankey builder -/

/-- Keys of the links Counter are pairwise distinct and canonically
ordered. -/
def linkKeyInv (l : List ((String × String) × Nat)) : Prop :=
  (l.map Prod.fst).Nodup ∧ ∀ k ∈ l.map Prod.fst, pyStrLe k.1 k.2 = true

lemma charListLe_total (a : List Char) : ∀ b, charListLe a b = true ∨ charListLe b a = true := by
  induction a with
  | nil => intro b; exact Or.inl rfl
  | cons x as ih =>
    intro b
    cases b with
    | nil => exact Or.inr rfl
    | cons y bs =>
      by_cases h1 : x.toNat < y.toNat
      · left
        simp only [charListLe, if_pos h1]
      · by_cases h2 : y.toNat < x.toNat
        · right
          simp only [charListLe, if_pos h2]
        · have hred1 : charListLe (x :: as) (y :: bs) = charListLe as bs := by
            simp only [charListLe, if_neg h1, if_neg h2]
          have hred2 : charListLe (y :: bs) (x :: as) = charListLe bs as := by
            simp only [charListLe, if_neg h1, if_neg h2]
          rw [hred1, hred2]
          exact ih bs

lemma charListLe_antisymm (a : List Char) :
    ∀ b, charListLe a b = true → charListLe b a = true → a = b := by
  induction a with
  | nil =>
    intro b h1 h2
    cases b with
    | nil => rfl
    | cons y bs => exact absurd h2 (by simp [charListLe])
  | cons x as ih =>
    intro b h1 h2
    cases b with
    | nil => exact absurd h1 (by simp [charListLe])
    | cons y bs =>
      by_cases hxy : x.toNat < y.toNat
      · have hyx : ¬ y.toNat < x.toNat := by omega
        rw [charListLe, if_neg hyx, if_pos hxy] at h2
        exact absurd h2 (by simp)
      · by_cases hyx : y.toNat < x.toNat
        · rw [charListLe, if_neg hxy, if_pos hyx] at h1
          exact absurd h1 (by simp)
        · have hn : x.toNat = y.toNat := by omega
          have hchar : x = y := Char.ext (UInt32.ext hn)
          rw [charListLe, if_neg hxy, if_neg hyx] at h1
          rw [charListLe, if_neg hyx, if_neg hxy] at h2
          rw [hchar, ih bs h1 h2]

lemma pyStrLe_total (a b : String) : pyStrLe a b = true ∨ pyStrLe b a = true :=
  charListLe_total a.data b.data

lemma pyStrLe_antisymm (a b : String) (h1 : pyStrLe a b = true)
    (h2 : pyStrLe b a = true) : a = b :=
  String.ext (charListLe_antisymm a.data b.data h1 h2)

lemma canonPair_le (a b : String) :
    pyStrLe (canonPair a b).1 (canonPair a b).2 = true := by
  unfold canonPair
  by_cases h : pyStrLe a b
  · rw [if_pos h]
    exact h
  · rw [if_neg h]
    rcases pyStrLe_total a b with h1 | h1
    · exact absurd h1 h
    · exact h1

lemma mem_keys_bumpLink (l : List ((String × String) × Nat)) (k j : String × String) :
    j ∈ (bumpLink l k).map Prod.fst ↔ j ∈ l.map Prod.fst ∨ j = k := by
  induction l with
  | nil => simp [bumpLink]
  | cons hd tl ih =>
    obtain ⟨k', v⟩ := hd
    by_cases hk : k' = k
    · subst hk
      simp only [bumpLink, if_true, List.map_cons, List.mem_cons]
      tauto
    · simp only [bumpLink]
      rw [if_neg hk]
      simp only [List.map_cons, List.mem_cons, ih]
      tauto

lemma linkKeyInv_bumpLink (l : List ((String × String) × Nat)) (k : String × String)
    (hk : pyStrLe k.1 k.2 = true) (h : linkKeyInv l) : linkKeyInv (bumpLink l k) := by
  obtain ⟨hnd, hcanon⟩ := h
  constructor
  · induction l with
    | nil => simp [bumpLink]
    | cons hd tl ih =>
      obtain ⟨k', v⟩ := hd
      simp only [List.map_cons, List.nodup_cons] at hnd
      by_cases hke : k' = k
      · subst hke
        simp only [bumpLink, if_true, List.map_cons, List.nodup_cons]
        exact hnd
      · simp only [bumpLink]
        rw [if_neg hke]
        simp only [List.map_cons, List.nodup_cons]
        refine ⟨?_, ih hnd.2 (fun j hj => hcanon j (List.mem_cons_of_mem _ hj))⟩
        rw [mem_keys_bumpLink]
        rintro (hmem | heq)
        · exact hnd.1 hmem
        · exact hke heq
  · intro j hj
    rcases (mem_keys_bumpLink l k j).mp hj with hmem | heq
    · exact hcanon j hmem
    · subst heq; exact hk

lemma linkKeyInv_foldPairs (prs : List (String × String)) :
    ∀ l : List ((String × String) × Nat), linkKeyInv l →
      linkKeyInv (prs.foldl (fun l' pr => bumpLink l' (canonPair pr.1 pr.2)) l) := by
  induction prs with
  | nil => intro l h; exact h
  | cons pr rest ih =>
    intro l h
    exact ih _ (linkKeyInv_bumpLink l _ (canonPair_le pr.1 pr.2) h)

lemma linkKeyInv_buildLinks (asgn : List (List String)) :
    linkKeyInv (buildLinks asgn) := by
  have haux : ∀ (a : List (List String)) (l : List ((String × String) × Nat)),
      linkKeyInv l →
      linkKeyInv (a.foldl (fun acc cats =>
        (orderedPairs cats).foldl (fun l' pr => bumpLink l' (canonPair pr.1 pr.2)) acc) l) := by
    intro a
    induction a with
    | nil => intro l h; exact h
    | cons cats rest ih =>
      intro l h
      exact ih _ (linkKeyInv_foldPairs (orderedPairs cats) l h)
  exact haux asgn [] ⟨List.nodup_nil, by simp⟩

lemma idxLookup_get (l : List String) (cat : String) :
    ∀ i j : Nat, idxLookup l cat i = some j → i ≤ j ∧ l.get? (j - i) = some cat := by
  induction l with
  | nil => intro i j h; exact absurd h (by simp [idxLookup])
  | cons c rest ih =>
    intro i j h
    by_cases hc : c = cat
    · rw [idxLookup, if_pos hc] at h
      injection h with h'
      subst h'
      simp [hc]
    · rw [idxLookup, if_neg hc] at h
      obtain ⟨hle, hget⟩ := ih (i + 1) j h
      refine ⟨by omega, ?_⟩
      have hsub : j - i = (j - (i + 1)) + 1 := by omega
      rw [hsub]
      simpa using hget

lemma node_to_id_inj (a b : String) (i : Nat)
    (ha : node_to_id a = .ok i) (hb : node_to_id b = .ok i) : a = b := by
  unfold node_to_id at ha hb
  cases hga : idxLookup CORE_CATEGORIES a 0 with
  | none => rw [hga] at ha; exact absurd ha (by simp)
  | some ja =>
    cases hgb : idxLookup CORE_CATEGORIES b 0 with
    | none => rw [hgb] at hb; exact absurd hb (by simp)
    | some jb =>
      rw [hga] at ha
      rw [hgb] at hb
      have hja : ja = i := by injection ha
      have hjb : jb = i := by injection hb
      rw [hja] at hga
      rw [hjb] at hgb
      have h1 := (idxLookup_get CORE_CATEGORIES a 0 i hga).2
      have h2 := (idxLookup_get CORE_CATEGORIES b 0 i hgb).2
      rw [h1] at h2
      exact Option.some.inj h2

lemma emitLinks_mem (counter : List ((String × String) × Nat))
    (ls : List SankeyLink) (h : emitLinks counter = .ok ls) :
    ∀ l ∈ ls, ∃ k v, (k, v) ∈ counter ∧ 0 < v ∧
      node_to_id k.1 = .ok l.source ∧ node_to_id k.2 = .ok l.target ∧ l.value = v := by
  induction counter generalizing ls with
  | nil =>
    injection h with h'
    subst h'
    intro l hl
    exact absurd hl (by simp)
  | cons hd rest ih =>
    obtain ⟨⟨s, t⟩, v⟩ := hd
    by_cases hv : 0 < v
    · rw [emitLinks, if_pos hv] at h
      cases hs : node_to_id s with
      | error e => rw [hs] at h; exact absurd h (by simp)
      | ok si =>
        cases hts : node_to_id t with
        | error e => rw [hs, hts] at h; exact absurd h (by simp)
        | ok ti =>
          cases hrest : emitLinks rest with
          | error e => rw [hs, hts, hrest] at h; exact absurd h (by simp)
          | ok ls' =>
            rw [hs, hts, hrest] at h
            injection h with h'
            subst h'
            intro l hl
            rcases List.mem_cons.mp hl with hl' | hl'
            · subst hl'
              exact ⟨(s, t), v, List.mem_cons_self _ _, hv, hs, hts, rfl⟩
            · obtain ⟨k, v', hk, hv', h1, h2, h3⟩ := ih ls' hrest l hl'
              exact ⟨k, v', List.mem_cons_of_mem _ hk, hv', h1, h2, h3⟩
    · rw [emitLinks, if_neg hv] at h
      intro l hl
      obtain ⟨k, v', hk, hv', h1, h2, h3⟩ := ih ls h l hl
      exact ⟨k, v', List.mem_cons_of_mem _ hk, hv', h1, h2, h3⟩

lemma emitLinks_pos (counter : List ((String × String) × Nat))
    (ls : List SankeyLink) (h : emitLinks counter = .ok ls) :
    ∀ l ∈ ls, 0 < l.value := by
  intro l hl
  obtain ⟨_, v, _, hv, _, _, hval⟩ := emitLinks_mem counter ls h l hl
  rw [hval]
  exact hv

lemma emitLinks_pairwise (counter : List ((String × String) × Nat))
    (hinv : linkKeyInv counter) (ls : List SankeyLink)
    (h : emitLinks counter = .ok ls) :
    ls.Pairwise (fun l1 l2 =>
      ¬(l1.source = l2.source ∧ l1.target = l2.target) ∧
      ¬(l1.source = l2.target ∧ l1.target = l2.source)) := by
  induction counter generalizing ls with
  | nil =>
    injection h with h'
    subst h'
    exact List.Pairwise.nil
  | cons hd rest ih =>
    obtain ⟨⟨s, t⟩, v⟩ := hd
    obtain ⟨hnd, hcanon⟩ := hinv
    simp only [List.map_cons, List.nodup_cons] at hnd
    have hinv' : linkKeyInv rest :=
      ⟨hnd.2, fun k hk => hcanon k (List.mem_cons_of_mem _ hk)⟩
    by_cases hv : 0 < v
    · rw [emitLinks, if_pos hv] at h
      cases hs : node_to_id s with
      | error e => rw [hs] at h; exact absurd h (by simp)
      | ok si =>
        cases hts : node_to_id t with
        | error e => rw [hs, hts] at h; exact absurd h (by simp)
        | ok ti =>
          cases hrest : emitLinks rest with
          | error e => rw [hs, hts, hrest] at h; exact absurd h (by simp)
          | ok ls' =>
            rw [hs, hts, hrest] at h
            injection h with h'
            subst h'
            refine List.Pairwise.cons ?_ (ih hinv' ls' hrest)
            intro l2 hl2
            obtain ⟨k, v', hk, _, hk1, hk2, _⟩ := emitLinks_mem rest ls' hrest l2 hl2
            have hkmem : k ∈ rest.map Prod.fst := List.mem_map.mpr ⟨(k, v'), hk, rfl⟩
            have hst : pyStrLe (s, t).1 (s, t).2 = true := hcanon (s, t) (by simp)
            have hk12 : pyStrLe k.1 k.2 = true :=
              hcanon k (List.mem_cons_of_mem _ hkmem)
            constructor
            · rintro ⟨h1, h2⟩
              apply hnd.1
              have h1' : si = l2.source := h1
              have h2' : ti = l2.target := h2
              have hks : s = k.1 :=
                node_to_id_inj s k.1 l2.source (h1' ▸ hs) hk1
              have hkt : t = k.2 :=
                node_to_id_inj t k.2 l2.target (h2' ▸ hts) hk2
              have hpair : (s, t) = k := by
                cases k with
                | mk ka kb =>
                  simp only at hks hkt
                  rw [Prod.mk.injEq]
                  exact ⟨hks, hkt⟩
              rw [hpair]
              exact hkmem
            · rintro ⟨h1, h2⟩
              apply hnd.1
              have h1' : si = l2.target := h1
              have h2' : ti = l2.source := h2
              have hks : s = k.2 :=
                node_to_id_inj s k.2 l2.target (h1' ▸ hs) hk2
              have hkt : t = k.1 :=
                node_to_id_inj t k.1 l2.source (h2' ▸ hts) hk1
              have hst2 : pyStrLe k.2 k.1 = true := by
                rw [← hks, ← hkt]
                exact hst
              have hkeq : k.1 = k.2 := pyStrLe_antisymm k.1 k.2 hk12 hst2
              have hpair : (s, t) = k := by
                cases k with
                | mk ka kb =>
                  simp only at hks hkt hkeq
                  rw [Prod.mk.injEq]
                  refine ⟨?_, ?_⟩
                  · rw [hks, ← hkeq]
                  · rw [hkt, hkeq]
              rw [hpair]
              exact hkmem
    · rw [emitLinks, if_neg hv] at h
      exact ih hinv' ls h

/-! ### Claims C4, C8, C9 -/

/-- C4: in the Sankey output, co-occurrence links are keyed by the
canonical (sorted) category pair, so no two links share the same
unordered endpoint pair — in particular never both (A,B) and (B,A). -/
theorem C4_canonical_links (asgn : List (List String)) (out : SankeyData)
    (h : buildSankey asgn = .ok out) :
    out.links.Pairwise (fun l1 l2 =>
      ¬(l1.source = l2.source ∧ l1.target = l2.target) ∧
      ¬(l1.source = l2.target ∧ l1.target = l2.source)) := by
  unfold buildSankey at h
  cases he : emitLinks (buildLinks asgn) with
  | error e => rw [he] at h; exact absurd h (by simp)
  | ok ls =>
    rw [he] at h
    injection h with h'
    rw [← h']
    exact emitLinks_pairwise _ (linkKeyInv_buildLinks asgn) ls he

/-- Two records assigned the pair of categories in opposite orders. -/
def phAsgnW : List (List String) := [["Gaming", "AI/ML"], ["AI/ML", "Gaming"]]

/-- The node table built from `CORE_CATEGORIES`. -/
def phNodesW : List SankeyNode :=
  [{ node := 0, name := "AI/ML" }, { node := 1, name := "Developer Tools" },
   { node := 2, name := "Productivity" }, { node := 3, name := "Design" },
   { node := 4, name := "Marketing & Sales" }, { node := 5, name := "Finance" },
   { node := 6, name := "Education" }, { node := 7, name := "Health & Fitness" },
   { node := 8, name := "Gaming" }, { node := 9, name := "Hardware" },
   { node := 10, name := "Security" }, { node := 11, name := "Social" },
   { node := 12, name := "Data & Analytics" }, { node := 13, name := "No-Code/Low-Code" },
   { node := 14, name := "Other" }]

/-- The Sankey data for `phAsgnW`: the two opposite-order pairs collapse
to a single link of value 2. -/
def phSankeyW : SankeyData :=
  { nodes := phNodesW
    links := [{ source := 0, target := 8, value := 2 }] }

/-- C4 witness: `C4_canonical_links` at the concrete assignment list
`phAsgnW`, where (Gaming, AI/ML) and (AI/ML, Gaming) merge into one
link. -/
theorem C4_witness :
    buildSankey phAsgnW = .ok phSankeyW ∧
    phSankeyW.links.Pairwise (fun l1 l2 =>
      ¬(l1.source = l2.source ∧ l1.target = l2.target) ∧
      ¬(l1.source = l2.target ∧ l1.target = l2.source)) :=
  ⟨rfl, C4_canonical_links phAsgnW phSankeyW rfl⟩

/-- An oracle that rates every record's topics as AI/ML (9) and
Gaming (8). -/
def phOracleW : List String → Except Unit (List (String × Int)) :=
  fun _ => .ok [("AI/ML", 9), ("Gaming", 8)]

/-- A Product Hunt record with one tagline. -/
def phRecA : PHRecord :=
  { title := some "Prod", tagline := some "tagline one", url := some "u",
    topics := ["ai"] }

/-- The same record except for its tagline. -/
def phRecB : PHRecord :=
  { title := some "Prod", tagline := some "tagline two", url := some "u",
    topics := ["ai"] }

/-- The full function output for `[phRecA]`: one link, with no record
annotation on it; `product_details` carries title/url/topics only. -/
def phOutW : PHResult :=
  { sankey_data := { nodes := phNodesW, links := [{ source := 0, target := 8, value := 1 }] }
    product_details := [{ title := "Prod", url := "u", topics := ["ai"] }] }

/-- C8, counterexample: two inputs that differ only in a record's
tagline produce byte-for-byte identical outputs, and that output does
emit a link — so emitted links are not annotated with the originating
records (title + tagline): no tagline information reaches the output at
all, and links carry only source/target/value. -/
theorem C8_counterexample :
    phRecA.tagline ≠ phRecB.tagline ∧
    process_product_hunt_for_sankey (some "k") phOracleW [phRecA] =
      process_product_hunt_for_sankey (some "k") phOracleW [phRecB] ∧
    (process_product_hunt_for_sankey (some "k") phOracleW [phRecA]).toOption =
      some (some phOutW) :=
  ⟨by decide, rfl, rfl⟩

/-- C8 (amended): every emitted link carries exactly a source node id, a
target node id and a strictly positive co-occurrence count; the
originating-record information is not attached to links but returned
separately as `product_details`, one entry (title, url, topics — no
tagline) per input record. -/
theorem C8_links_value_and_details (api_key : Option String)
    (oracle : List String → Except Unit (List (String × Int)))
    (data : List PHRecord) (out : PHResult)
    (h : process_product_hunt_for_sankey api_key oracle data = .ok (some out)) :
    (∀ l ∈ out.sankey_data.links, 0 < l.value) ∧
    out.product_details = data.map (fun p =>
      { title := p.title.getD "", url := p.url.getD "", topics := p.topics }) := by
  unfold process_product_hunt_for_sankey at h
  cases hk : pyTruthy api_key with
  | false =>
    rw [hk] at h
    simp at h
  | true =>
    rw [hk] at h
    simp only [Bool.not_true, Bool.false_eq_true, if_false] at h
    cases hs : buildSankey (all_mapped_categories oracle data) with
    | error e => rw [hs] at h; exact absurd h (by simp)
    | ok sankey =>
      rw [hs] at h
      injection h with h'
      injection h' with h''
      rw [← h'']
      refine ⟨?_, rfl⟩
      intro l hl
      unfold buildSankey at hs
      cases he : emitLinks (buildLinks (all_mapped_categories oracle data)) with
      | error e => rw [he] at hs; exact absurd hs (by simp)
      | ok ls =>
        rw [he] at hs
        injection hs with hs'
        rw [← hs'] at hl
        exact emitLinks_pos _ ls he l hl

/-- C8 witness: `C8_links_value_and_details` at the concrete input
`[phRecA]`. -/
theorem C8_witness :
    process_product_hunt_for_sankey (some "k") phOracleW [phRecA] = .ok (some phOutW) ∧
    (∀ l ∈ phOutW.sankey_data.links, 0 < l.value) ∧
    phOutW.product_details = [phRecA].map (fun p =>
      { title := p.title.getD "", url := p.url.getD "", topics := p.topics }) :=
  ⟨rfl,
   (C8_links_value_and_details (some "k") phOracleW [phRecA] phOutW rfl).1,
   (C8_links_value_and_details (some "k") phOracleW [phRecA] phOutW rfl).2⟩

/-- C9: a record with an empty `topics` list is skipped before the
oracle is consulted and receives no category assignment at all, so the
per-record assignment list has exactly one entry per record with
non-empty topics (and can thus be shorter than the input list). -/
theorem C9_empty_topics_skipped
    (oracle : List String → Except Unit (List (String × Int)))
    (product_hunt_data : List PHRecord) :
    (all_mapped_categories oracle product_hunt_data).length =
      (product_hunt_data.filter (fun p => !decide (p.topics = []))).length := by
  induction product_hunt_data with
  | nil => rfl
  | cons p rest ih =>
    by_cases hp : p.topics = []
    · have hd : decide (p.topics = []) = true := by simp [hp]
      simp only [all_mapped_categories, if_pos hp, List.filter_cons, hd, Bool.not_true,
        Bool.false_eq_true, if_false]
      exact ih
    · have hd : decide (p.topics = []) = false := by simp [hp]
      simp only [all_mapped_categories, if_neg hp, List.filter_cons, hd, Bool.not_false,
        if_true, List.length_cons]
      rw [ih]

/-! ## `process_manifold_predictions_for_bubble_plot`
(data_processor.py lines 282-326) -/

/-- One prediction-market record as consumed by the function. The
numeric fields (a probability and a dollar volume, only passed through,
never computed with) are modelled as exact rationals. -/
structure Prediction where
  title : Option String
  probability_raw : Option ℚ
  volume : Option ℚ
  url : Option String

/-- The fixed category list of line 284. -/
def CORE_PREDICTION_CATEGORIES : List String :=
  ["AI", "Blockchain/Crypto", "Science/Research", "Politics/Society",
   "Economics/Finance", "Technology (General)", "Health", "Other"]

/-- One bubble-plot point. The failure branch of line 316 builds a dict
without a `'url'` key; `url = none` models that absent key, while the
success branch of lines 307-313 always sets it. -/
structure PlotPoint where
  x : ℚ
  y : ℚ
  label : String
  category : String
  url : Option String
deriving DecidableEq

/-- `full_text` of line 293. -/
def predFullText (p : Prediction) : String :=
  "Title: " ++ p.title.getD "" ++ "."

/-- The body of the per-record loop (lines 291-316). The oracle stands
for the LLM call plus the JSON parse; its `.ok` payload is the optional
`'category'` field of the parsed response (`llm_output.get('category',
'Other')`), and `.error ()` is any exception, caught by the
`except` branch. -/
def predPoint (oracle : String → Except Unit (Option String))
    (p : Prediction) : PlotPoint :=
  let title := p.title.getD ""
  match oracle (predFullText p) with
  | .error _ =>
    { x := 1/2, y := 0, label := title, category := "Other", url := none }
  | .ok resp =>
    let category0 := resp.getD "Other"
    let category :=
      if category0 ∈ CORE_PREDICTION_CATEGORIES then category0 else "Other"
    { x := p.probability_raw.getD (1/2), y := p.volume.getD 0, label := title,
      category := category, url := some (p.url.getD "") }

/-- `final_data["datasets"][0]` (lines 319-322). -/
structure BubbleDataset where
  label : String
  data : List PlotPoint
deriving DecidableEq

/-- The value returned on the success path (lines 318-324). -/
structure BubbleOutput where
  datasets : List BubbleDataset
  categories : List String
deriving DecidableEq

/-- `process_manifold_predictions_for_bubble_plot` (lines 282-326).
`none` models the bare `{}` returned when the oracle credential is
absent. -/
def process_manifold_predictions_for_bubble_plot (api_key : Option String)
    (oracle : String → Except Unit (Option String))
    (predictions_data : List Prediction) : Option BubbleOutput :=
  if !pyTruthy api_key then none
  else some
    { datasets := [
        { label := "Manifold Predictions"
          data := predictions_data.map (predPoint oracle) }]
      categories := CORE_PREDICTION_CATEGORIES }

/-! ### Claims C2 and C10 -/

/-- C2: with the oracle credential present, the output has exactly one
point per input record (`datasets[0].data` is the pointwise image of the
input, so nothing is dropped), every point's category belongs to the
fixed enumeration (an unrecognized or missing category resolves to
`"Other"`), and a record whose oracle call raises yields the point
`x = 0.5, y = 0, category = "Other"`. -/
theorem C2_one_point_per_record (api_key : Option String)
    (oracle : String → Except Unit (Option String))
    (predictions_data : List Prediction) (out : BubbleOutput)
    (hk : pyTruthy api_key = true)
    (h : process_manifold_predictions_for_bubble_plot api_key oracle
      predictions_data = some out) :
    out.datasets.map (fun ds => ds.data) =
      [predictions_data.map (predPoint oracle)] ∧
    out.datasets.map (fun ds => ds.data.length) = [predictions_data.length] ∧
    (∀ ds ∈ out.datasets, ∀ pt ∈ ds.data,
      pt.category ∈ CORE_PREDICTION_CATEGORIES) ∧
    (∀ p ∈ predictions_data, oracle (predFullText p) = .error () →
      predPoint oracle p =
        { x := 1/2, y := 0, label := p.title.getD "", category := "Other",
          url := none }) := by
  unfold process_manifold_predictions_for_bubble_plot at h
  rw [hk] at h
  simp only [Bool.not_true, Bool.false_eq_true, if_false] at h
  injection h with h'
  subst h'
  refine ⟨by simp, by simp, ?_, ?_⟩
  · intro ds hds pt hpt
    simp only [List.mem_singleton] at hds
    subst hds
    simp only [List.mem_map] at hpt
    obtain ⟨p, _, hp⟩ := hpt
    rw [← hp]
    unfold predPoint
    cases ho : oracle (predFullText p) with
    | error e =>
      show "Other" ∈ CORE_PREDICTION_CATEGORIES
      decide
    | ok resp =>
      by_cases hc : resp.getD "Other" ∈ CORE_PREDICTION_CATEGORIES
      · show (if resp.getD "Other" ∈ CORE_PREDICTION_CATEGORIES
            then resp.getD "Other" else "Other") ∈ CORE_PREDICTION_CATEGORIES
        rw [if_pos hc]
        exact hc
      · show (if resp.getD "Other" ∈ CORE_PREDICTION_CATEGORIES
            then resp.getD "Other" else "Other") ∈ CORE_PREDICTION_CATEGORIES
        rw [if_neg hc]
        decide
  · intro p _ herr
    unfold predPoint
    rw [herr]

/-- An oracle that always raises. -/
def manifoldOracleErr : String → Except Unit (Option String) := fun _ => .error ()

/-- A prediction record with no probability, volume or url fields. -/
def predW : Prediction :=
  { title := some "Will it happen", probability_raw := none, volume := none,
    url := none }

/-- The output for `[predW]` under the always-raising oracle. -/
def manifoldOutW : BubbleOutput :=
  { datasets := [
      { label := "Manifold Predictions"
        data := [{ x := 1/2, y := 0, label := "Will it happen",
                   category := "Other", url := none }] }]
    categories := CORE_PREDICTION_CATEGORIES }

/-- C2 witness: `C2_one_point_per_record` at the concrete one-record
input `[predW]` under an always-raising oracle. -/
theorem C2_witness :
    pyTruthy (some "k") = true ∧
    process_manifold_predictions_for_bubble_plot (some "k") manifoldOracleErr
      [predW] = some manifoldOutW ∧
    (manifoldOutW.datasets.map (fun ds => ds.data.length) = [([predW] : List Prediction).length] ∧
     ∀ ds ∈ manifoldOutW.datasets, ∀ pt ∈ ds.data,
       pt.category ∈ CORE_PREDICTION_CATEGORIES) :=
  ⟨rfl, rfl,
   (C2_one_point_per_record (some "k") manifoldOracleErr [predW] manifoldOutW
      rfl rfl).2.1,
   (C2_one_point_per_record (some "k") manifoldOracleErr [predW] manifoldOutW
      rfl rfl).2.2.1⟩

/-- C10: a point from the failure branch carries no `'url'` key
(`url = none`) while every success-path point carries one; on the
success path a missing `'probability_raw'` field defaults `x` to `0.5`
and a missing `'volume'` field defaults `y` to `0`. -/
theorem C10_failure_point_shape (oracle : String → Except Unit (Option String))
    (p : Prediction) :
    (oracle (predFullText p) = .error () → (predPoint oracle p).url = none) ∧
    (∀ resp, oracle (predFullText p) = .ok resp →
      (predPoint oracle p).url = some (p.url.getD "") ∧
      (p.probability_raw = none → (predPoint oracle p).x = 1/2) ∧
      (p.volume = none → (predPoint oracle p).y = 0)) := by
  constructor
  · intro herr
    unfold predPoint
    rw [herr]
  · intro resp hok
    unfold predPoint
    rw [hok]
    refine ⟨rfl, ?_, ?_⟩
    · intro hx
      simp [hx]
    · intro hy
      simp [hy]

/-- C10 witness: `C10_failure_point_shape` at `predW`, once under the
always-raising oracle and once under an oracle returning no category. -/
theorem C10_witness :
    (manifoldOracleErr (predFullText predW) = .error () ∧
      (predPoint manifoldOracleErr predW).url = none) ∧
    ((fun _ => Except.ok none : String → Except Unit (Option String))
        (predFullText predW) = .ok none ∧
      (predPoint (fun _ => Except.ok none) predW).url = some "" ∧
      (predPoint (fun _ => Except.ok none) predW).x = 1/2 ∧
      (predPoint (fun _ => Except.ok none) predW).y = 0) :=
  ⟨⟨rfl, (C10_failure_point_shape manifoldOracleErr predW).1 rfl⟩,
   ⟨rfl,
    ((C10_failure_point_shape (fun _ => Except.ok none) predW).2 none rfl).1,
    ((C10_failure_point_shape (fun _ => Except.ok none) predW).2 none rfl).2.1 rfl,
    ((C10_failure_point_shape (fun _ => Except.ok none) predW).2 none rfl).2.2 rfl⟩⟩

/-! ## `process_rss_feeds_for_wordcloud` (data_processor.py lines 73-211) -/

/-- One RSS article record. (The source skips falsy — empty — article
dicts via `if article`; fetched records are always non-empty dicts, so
the structure models the truthy case.) -/
structure Article where
  title : Option String
  description : Option String
deriving DecidableEq

/-- `" ".join(f"{article.get('title', '')} {article.get('description', '')}" ...)`
(line 82). -/
def all_text (rss_data : List Article) : String :=
  String.intercalate " "
    (rss_data.map (fun a => a.title.getD "" ++ " " ++ a.description.getD ""))

/-- The `[a-zA-Z]` class of the regex on line 83. -/
def isAsciiAlpha (c : Char) : Bool :=
  (decide (97 ≤ c.toNat) && decide (c.toNat ≤ 122)) ||
    (decide (65 ≤ c.toNat) && decide (c.toNat ≤ 90))

/-- The whitespace class `\s` of the same regex, which is also the
separator class of `str.split()` (line 84): since the very same class
both survives the regex and delimits the split, the produced token list
is insensitive to the exact exotic-codepoint boundary, and the ASCII
whitespace characters are listed. -/
def isPySpace (c : Char) : Bool :=
  c.toNat = 32 || c.toNat = 9 || c.toNat = 10 || c.toNat = 13 ||
    c.toNat = 11 || c.toNat = 12

/-- `.lower()` restricted to the characters the regex keeps (ASCII
letters and whitespace). -/
def toLowerAscii (c : Char) : Char :=
  if 65 ≤ c.toNat ∧ c.toNat ≤ 90 then Char.ofNat (c.toNat + 32) else c

/-- `cleaned_text` (line 83): strip every character that is neither an
ASCII letter nor whitespace, then lowercase. -/
def cleaned_text (rss_data : List Article) : List Char :=
  ((all_text rss_data).data.filter (fun c => isAsciiAlpha c || isPySpace c)).map
    toLowerAscii

/-- `str.split()` (line 84): split on whitespace runs, dropping empty
pieces. -/
def splitWsGo : List Char → List Char → List String
  | [], acc => if acc = [] then [] else [String.mk acc.reverse]
  | c :: rest, acc =>
    if isPySpace c then
      (if acc = [] then splitWsGo rest []
       else String.mk acc.reverse :: splitWsGo rest [])
    else splitWsGo rest (c :: acc)

/-- `words = cleaned_text.split()` (line 84). -/
def pySplitWs (cs : List Char) : List String := splitWsGo cs []

/-- The stop-word set of line 86 (the literal list; the duplicates in
the source literal are harmless for membership). -/
def STOP_WORDS : List String := [
  "the", "and", "a", "an", "is", "it", "in", "of", "for", "on", "with",
   "to", "from", "by", "as", "at", "be", "this", "that", "have", "has",
   "he", "she", "it", "they", "we", "you", "i", "me", "him", "her", "us",
   "them", "my", "your", "his", "her", "its", "our", "their", "what",
   "where", "when", "why", "how", "which", "who", "whom", "whose", "am",
   "are", "was", "were", "been", "being", "do", "does", "did", "done",
   "doing", "can", "could", "would", "should", "will", "may", "might",
   "must", "had", "get", "go", "new", "just", "also", "like", "said",
   "says", "say", "one", "two", "three", "four", "five", "six", "seven",
   "eight", "nine", "ten", "up", "down", "out", "in", "on", "off", "over",
   "under", "again", "further", "then", "once", "here", "there", "when",
   "where", "why", "how", "all", "any", "both", "each", "few", "more",
   "most", "other", "some", "such", "no", "nor", "not", "only", "own",
   "same", "so", "than", "too", "very", "s", "t", "can", "will", "just",
   "don", "should", "now", "d", "ll", "m", "o", "re", "ve", "y", "ain",
   "aren", "couldn", "didn", "doesn", "hadn", "hasn", "haven", "isn",
   "ma", "mightn", "mustn", "needn", "shan", "shouldn", "wasn", "weren",
   "won", "wouldn"]

/-- `filtered_words` (line 88): drop stop-words and tokens of length
at most 2. -/
def filtered_words (rss_data : List Article) : List String :=
  (pySplitWs (cleaned_text rss_data)).filter
    (fun w => !decide (w ∈ STOP_WORDS) && decide (2 < w.length))

/-- One `Counter` increment (line 89), insertion-ordered. -/
def bumpWord : List (String × Nat) → String → List (String × Nat)
  | [], w => [(w, 1)]
  | (k, v) :: rest, w =>
    if k = w then (k, v + 1) :: rest else (k, v) :: bumpWord rest w

/-- `word_counts = Counter(filtered_words)` (line 89). -/
def word_counts (ws : List String) : List (String × Nat) :=
  ws.foldl bumpWord []

/-- `top_words = word_counts.most_common(50)` (line 90):
`Counter.most_common(n)` is the stable descending sort of the counter
items by count, truncated to n. -/
def top_words (rss_data : List Article) : List (String × Nat) :=
  (stableSort (fun a b => decide (b.2 ≤ a.2))
    (word_counts (filtered_words rss_data))).take 50

/-! ### Supporting lemmas for the keyword extractor -/

lemma mem_stableInsert (le : α → α → Bool) (x a : α) (l : List α) :
    a ∈ stableInsert le x l ↔ a = x ∨ a ∈ l := by
  induction l with
  | nil => simp [stableInsert]
  | cons y ys ih =>
    by_cases hc : le y x && !le x y
    · simp only [stableInsert, if_pos hc, List.mem_cons, ih]
      tauto
    · simp only [stableInsert, if_neg hc, List.mem_cons]

lemma mem_stableSort (le : α → α → Bool) (l : List α) (a : α)
    (h : a ∈ stableSort le l) : a ∈ l := by
  induction l with
  | nil => exact absurd h (by simp [stableSort])
  | cons x xs ih =>
    rw [stableSort, mem_stableInsert] at h
    rcases h with h | h
    · exact h ▸ List.mem_cons_self _ _
    · exact List.mem_cons_of_mem _ (ih h)

lemma stableInsert_pairwise (le : α → α → Bool)
    (htrans : ∀ a b c, le a b = true → le b c = true → le a c = true)
    (htot : ∀ a b, le a b = true ∨ le b a = true)
    (x : α) (l : List α) (h : l.Pairwise (fun a b => le a b = true)) :
    (stableInsert le x l).Pairwise (fun a b => le a b = true) := by
  induction l with
  | nil => simp [stableInsert]
  | cons y ys ih =>
    rw [List.pairwise_cons] at h
    by_cases hc : le y x && !le x y
    · rw [stableInsert, if_pos hc]
      rw [List.pairwise_cons]
      constructor
      · intro z hz
        rcases (mem_stableInsert le x z ys).mp hz with hz' | hz'
        · subst hz'
          exact (Bool.and_eq_true_iff.mp hc).1
        · exact h.1 z hz'
      · exact ih h.2
    · rw [stableInsert, if_neg hc]
      have hxy : le x y = true := by
        rcases htot x y with h' | h'
        · exact h'
        · by_cases hxy2 : le x y = true
          · exact hxy2
          · exfalso
            apply hc
            rw [Bool.and_eq_true_iff]
            refine ⟨h', ?_⟩
            simp [hxy2]
      rw [List.pairwise_cons]
      constructor
      · intro z hz
        rcases List.mem_cons.mp hz with hz' | hz'
        · subst hz'
          exact hxy
        · exact htrans x y z hxy (h.1 z hz')
      · rw [List.pairwise_cons]
        exact h

lemma stableSort_pairwise (le : α → α → Bool)
    (htrans : ∀ a b c, le a b = true → le b c = true → le a c = true)
    (htot : ∀ a b, le a b = true ∨ le b a = true) (l : List α) :
    (stableSort le l).Pairwise (fun a b => le a b = true) := by
  induction l with
  | nil => exact List.Pairwise.nil
  | cons x xs ih => exact stableInsert_pairwise le htrans htot x _ ih

lemma mem_keys_bumpWord (l : List (String × Nat)) (w : String) (p : String × Nat)
    (h : p ∈ bumpWord l w) : p.1 ∈ l.map Prod.fst ∨ p.1 = w := by
  induction l with
  | nil =>
    rcases List.mem_singleton.mp h with h'
    rw [h']
    exact Or.inr rfl
  | cons hd tl ih =>
    obtain ⟨k, v⟩ := hd
    by_cases hk : k = w
    · subst hk
      rw [bumpWord, if_pos rfl] at h
      rcases List.mem_cons.mp h with h' | h'
      · rw [h']
        simp
      · refine Or.inl ?_
        simp only [List.map_cons, List.mem_cons]
        exact Or.inr (List.mem_map.mpr ⟨p, h', rfl⟩)
    · rw [bumpWord, if_neg hk] at h
      rcases List.mem_cons.mp h with h' | h'
      · rw [h']
        simp
      · rcases ih h' with h'' | h''
        · exact Or.inl (by simp only [List.map_cons, List.mem_cons]; exact Or.inr h'')
        · exact Or.inr h''

lemma mem_bumpWord_of_mem (l : List (String × Nat)) (w : String) (j : String)
    (h : j ∈ (bumpWord l w).map Prod.fst) : j ∈ l.map Prod.fst ∨ j = w := by
  obtain ⟨p, hp, hj⟩ := List.mem_map.mp h
  rcases mem_keys_bumpWord l w p hp with h' | h'
  · exact Or.inl (hj ▸ h')
  · exact Or.inr (hj ▸ h')

lemma keys_word_counts (ws : List String) :
    ∀ (l : List (String × Nat)) (j : String),
      j ∈ (ws.foldl bumpWord l).map Prod.fst → j ∈ l.map Prod.fst ∨ j ∈ ws := by
  induction ws with
  | nil => intro l j h; exact Or.inl h
  | cons w rest ih =>
    intro l j h
    rw [List.foldl_cons] at h
    rcases ih (bumpWord l w) j h with h' | h'
    · rcases mem_bumpWord_of_mem l w j h' with h'' | h''
      · exact Or.inl h''
      · exact Or.inr (h'' ▸ List.mem_cons_self _ _)
    · exact Or.inr (List.mem_cons_of_mem _ h')

lemma mem_word_counts (ws : List String) (p : String × Nat)
    (h : p ∈ word_counts ws) : p.1 ∈ ws := by
  have := keys_word_counts ws [] p.1 (List.mem_map.mpr ⟨p, h, rfl⟩)
  rcases this with h' | h'
  · exact absurd h' (by simp)
  · exact h'

/-! ### Claim C6 -/

/-- C6: every candidate handed to the word-cloud oracle (an entry of
`top_words`, the 50 most frequent filtered tokens) is a token of
`filtered_words` — in particular it is neither a stop-word nor of length
at most 2 — and the candidate list is at most 50 long and sorted by
non-increasing count (the stable descending order of
`Counter.most_common`). -/
theorem C6_candidate_tokens (rss_data : List Article) :
    (∀ p ∈ top_words rss_data,
      p.1 ∈ filtered_words rss_data ∧ p.1 ∉ STOP_WORDS ∧ 2 < p.1.length) ∧
    (top_words rss_data).length ≤ 50 ∧
    (top_words rss_data).Pairwise (fun a b => b.2 ≤ a.2) := by
  refine ⟨?_, ?_, ?_⟩
  · intro p hp
    have hsort : p ∈ stableSort (fun a b => decide (b.2 ≤ a.2))
        (word_counts (filtered_words rss_data)) :=
      List.mem_of_mem_take hp
    have hcount : p ∈ word_counts (filtered_words rss_data) :=
      mem_stableSort _ _ p hsort
    have hw : p.1 ∈ filtered_words rss_data := mem_word_counts _ p hcount
    refine ⟨hw, ?_, ?_⟩
    · have := (List.mem_filter.mp hw).2
      rw [Bool.and_eq_true_iff] at this
      intro hstop
      have h1 := this.1
      rw [Bool.not_eq_true', decide_eq_false_iff_not] at h1
      exact h1 hstop
    · have := (List.mem_filter.mp hw).2
      rw [Bool.and_eq_true_iff] at this
      exact of_decide_eq_true this.2
  · unfold top_words
    rw [List.length_take]
    exact min_le_left _ _
  · have hp := stableSort_pairwise (fun a b : String × Nat => decide (b.2 ≤ a.2))
      (fun a b c h1 h2 => by
        rw [decide_eq_true_eq] at h1 h2 ⊢
        omega)
      (fun a b => by
        rcases Nat.le_total b.2 a.2 with h | h
        · exact Or.inl (decide_eq_true h)
        · exact Or.inr (decide_eq_true h))
      (word_counts (filtered_words rss_data))
    have htake := hp.sublist (List.take_sublist 50 _)
    unfold top_words
    exact htake.imp (fun h => of_decide_eq_true h)

/-- One keyword entry of the word-cloud oracle's response
(lines 117-132 describe the requested shape; the shape is not enforced,
so each field is as parsed). -/
structure KeywordEntry where
  text : String
  value : Int
  desc : Option String
deriving DecidableEq

/-- One hot-topic entry of the trending-news oracle's response. -/
structure HotTopic where
  topic : String
  summary : String
  momentum : String
deriving DecidableEq

/-- The parsed word-cloud response; `keywords` is optional because the
source reads it with `word_cloud_output.get("keywords", [])`
(line 199). -/
structure WordCloudResp where
  keywords : Option (List KeywordEntry)

/-- The parsed trending-news response; `hot_topics` likewise defaults
(line 200). -/
structure TrendingResp where
  hot_topics : Option (List HotTopic)

/-- `summarized_rss_data` (line 149): title/description pairs. -/
def summarized_rss_data (rss_data : List Article) : List (String × String) :=
  rss_data.map (fun a => (a.title.getD "", a.description.getD ""))

/-- The combined `final_output` (lines 198-201). -/
structure RssOutput where
  keywords : List KeywordEntry
  hot_topics : List HotTopic
deriving DecidableEq

/-- `process_rss_feeds_for_wordcloud` (lines 73-211). The data
preparation of lines 82-91 runs before the credential check of line 93;
`none` models the bare `{}` returned both when the credential is absent
and when either oracle call (or the parse of its response) raises inside
the `try` of lines 97-208. The word-cloud oracle receives exactly
`top_words` (via the formatted `llm_input_words` string of line 91). -/
def process_rss_feeds_for_wordcloud (api_key : Option String)
    (word_cloud_oracle : List (String × Nat) → Except Unit WordCloudResp)
    (trending_news_oracle : List (String × String) → Except Unit TrendingResp)
    (rss_data : List Article) : Option RssOutput :=
  let tw := top_words rss_data
  if !pyTruthy api_key then none
  else
    match word_cloud_oracle tw with
    | .error _ => none
    | .ok wc =>
      match trending_news_oracle (summarized_rss_data rss_data) with
      | .error _ => none
      | .ok tn =>
        some { keywords := wc.keywords.getD [], hot_topics := tn.hot_topics.getD [] }

/-! ### Claim C5 -/

/-- C5: when the oracle credential is absent (unset or empty), all three
oracle-dependent processors return their empty/default structure, for
every input and every oracle, and none of them raises (`none`, `.ok
none` and `none` model the bare `{}` returns; the Product Hunt
processor, the only one whose embedding can fail at all, returns `.ok`). -/
theorem C5_no_credential_degrades (api_key : Option String)
    (hk : pyTruthy api_key = false)
    (word_cloud_oracle : List (String × Nat) → Except Unit WordCloudResp)
    (trending_news_oracle : List (String × String) → Except Unit TrendingResp)
    (rss_data : List Article)
    (ph_oracle : List String → Except Unit (List (String × Int)))
    (ph_data : List PHRecord)
    (m_oracle : String → Except Unit (Option String))
    (m_data : List Prediction) :
    process_rss_feeds_for_wordcloud api_key word_cloud_oracle trending_news_oracle
      rss_data = none ∧
    process_product_hunt_for_sankey api_key ph_oracle ph_data = .ok none ∧
    process_manifold_predictions_for_bubble_plot api_key m_oracle m_data = none := by
  refine ⟨?_, ?_, ?_⟩
  · unfold process_rss_feeds_for_wordcloud
    rw [hk]
    rfl
  · unfold process_product_hunt_for_sankey
    rw [hk]
    rfl
  · unfold process_manifold_predictions_for_bubble_plot
    rw [hk]
    rfl

/-- C5 witness: `C5_no_credential_degrades` with the credential unset,
always-raising oracles and one-record inputs. -/
theorem C5_witness :
    pyTruthy none = false ∧
    (process_rss_feeds_for_wordcloud none (fun _ => .error ()) (fun _ => .error ())
        [{ title := some "t", description := some "d" }] = none ∧
     process_product_hunt_for_sankey none (fun _ => .error ()) [phRecA] = .ok none ∧
     process_manifold_predictions_for_bubble_plot none (fun _ => .error ())
        [predW] = none) :=
  ⟨rfl, C5_no_credential_degrades none rfl (fun _ => .error ()) (fun _ => .error ())
    [{ title := some "t", description := some "d" }] (fun _ => .error ()) [phRecA]
    (fun _ => .error ()) [predW]⟩
